import Mathlib

/-!
Verification of the `ansible-hcp-terraform` collection core
(`plugins/module_utils/hcp_terraform_utils.py` and the per-resource
lookup helpers in `plugins/modules/`).

Python JSON-like values are embedded as the inductive `JValue`
(null / bool / int / str / list / dict).  Dictionaries are modelled as
insertion-ordered association lists; Python guarantees unique keys, which
is captured by the well-formedness predicate `wfJ` where a theorem needs
it.  Fallible Python code (AttributeError, TypeError, `fail_json`, ...)
is modelled with `Except PyErr`.  JSON floats do not occur in any claim
and are out of scope: numbers are integers.
-/

inductive JValue where
  | null : JValue
  | bool : Bool → JValue
  | num : Int → JValue
  | str : String → JValue
  | list : List JValue → JValue
  | dict : List (String × JValue) → JValue

mutual
def beqJ : JValue → JValue → Bool
  | .null, .null => true
  | .bool a, .bool b => a == b
  | .num a, .num b => a == b
  | .str a, .str b => a == b
  | .list xs, .list ys => beqL xs ys
  | .dict xs, .dict ys => beqE xs ys
  | _, _ => false
def beqL : List JValue → List JValue → Bool
  | [], [] => true
  | x :: xs, y :: ys => beqJ x y && beqL xs ys
  | _, _ => false
def beqE : List (String × JValue) → List (String × JValue) → Bool
  | [], [] => true
  | (k, v) :: xs, (k2, v2) :: ys => k == k2 && beqJ v v2 && beqE xs ys
  | _, _ => false
end

mutual
theorem beqJ_iff : ∀ a b, beqJ a b = true ↔ a = b
  | .null, .null => by simp [beqJ]
  | .bool a, .bool b => by simp [beqJ]
  | .num a, .num b => by simp [beqJ]
  | .str a, .str b => by simp [beqJ]
  | .list xs, .list ys => by simp [beqJ, beqL_iff xs ys]
  | .dict xs, .dict ys => by simp [beqJ, beqE_iff xs ys]
  | .null, .bool _ | .null, .num _ | .null, .str _ | .null, .list _ | .null, .dict _
  | .bool _, .null | .bool _, .num _ | .bool _, .str _ | .bool _, .list _ | .bool _, .dict _
  | .num _, .null | .num _, .bool _ | .num _, .str _ | .num _, .list _ | .num _, .dict _
  | .str _, .null | .str _, .bool _ | .str _, .num _ | .str _, .list _ | .str _, .dict _
  | .list _, .null | .list _, .bool _ | .list _, .num _ | .list _, .str _ | .list _, .dict _
  | .dict _, .null | .dict _, .bool _ | .dict _, .num _ | .dict _, .str _ | .dict _, .list _ => by
      simp [beqJ]
theorem beqL_iff : ∀ xs ys, beqL xs ys = true ↔ xs = ys
  | [], [] => by simp [beqL]
  | x :: xs, y :: ys => by simp [beqL, beqJ_iff x y, beqL_iff xs ys]
  | [], _ :: _ => by simp [beqL]
  | _ :: _, [] => by simp [beqL]
theorem beqE_iff : ∀ xs ys, beqE xs ys = true ↔ xs = ys
  | [], [] => by simp [beqE]
  | (k, v) :: xs, (k2, v2) :: ys => by
      simp [beqE, beqJ_iff v v2, beqE_iff xs ys, and_assoc]
  | [], _ :: _ => by simp [beqE]
  | _ :: _, [] => by simp [beqE]
end

instance : DecidableEq JValue := fun a b =>
  if h : beqJ a b = true then .isTrue ((beqJ_iff a b).mp h)
  else .isFalse (fun he => h ((beqJ_iff a b).mpr he))

instance {ε α : Type} [DecidableEq ε] [DecidableEq α] : DecidableEq (Except ε α) := fun a b =>
  match a, b with
  | .ok x, .ok y => if h : x = y then .isTrue (by rw [h]) else .isFalse (by simp [h])
  | .error x, .error y => if h : x = y then .isTrue (by rw [h]) else .isFalse (by simp [h])
  | .ok _, .error _ => .isFalse (by simp)
  | .error _, .ok _ => .isFalse (by simp)

/-- Python truthiness for the embedded values (`if x:`). -/
def truthy : JValue → Bool
  | .null => false
  | .bool b => b
  | .num n => n != 0
  | .str s => s != ""
  | .list xs => !xs.isEmpty
  | .dict kvs => !kvs.isEmpty

/-- Python exceptions / fatal exits that the embedded code can produce.
`failJson` stands for `module.fail_json` (diagnostic messages elided). -/
inductive PyErr where
  | attrError : PyErr
  | typeError : PyErr
  | indexError : PyErr
  | keyError : PyErr
  | failJson : PyErr
deriving DecidableEq

def singleQuote : String := (Char.ofNat 39).toString

/- Python `repr`, which `str`/`to_text` uses for containers.  The model
always uses single quotes for strings (Python switches to double quotes
when the text itself holds a single quote; no claim depends on that). -/
mutual
def pyRepr : JValue → String
  | .null => "None"
  | .bool true => "True"
  | .bool false => "False"
  | .num n => toString n
  | .str s => singleQuote ++ s ++ singleQuote
  | .list xs => "[" ++ String.intercalate ", " (pyReprList xs) ++ "]"
  | .dict kvs => "\x7b" ++ String.intercalate ", " (pyReprEntries kvs) ++ "\x7d"
def pyReprList : List JValue → List String
  | [] => []
  | x :: xs => pyRepr x :: pyReprList xs
def pyReprEntries : List (String × JValue) → List String
  | [] => []
  | (k, v) :: kvs => (singleQuote ++ k ++ singleQuote ++ ": " ++ pyRepr v) :: pyReprEntries kvs
end

/-- Ansible `to_text` on an embedded value: Python `str()`.  On the JSON
values of this model it is total (the `UnicodeError` branches of the
source are unreachable: they concern raw byte strings, which cannot
appear in decoded JSON or module parameters). -/
def to_text : JValue → String
  | .str s => s
  | v => pyRepr v

/-- Python `str.capitalize()`: first character upper-cased, the rest
lower-cased (ASCII suffices for the texts compared here). -/
def pyCapitalize (s : String) : String :=
  match s.toList with
  | [] => ""
  | c :: rest => String.mk (c.toUpper :: rest.map Char.toLower)

/- `HcpRequest._convert_value`: recursively replace every scalar by its
`to_text` form, keeping the list/dict structure. -/
mutual
def convert_value : JValue → JValue
  | .list xs => .list (convertList xs)
  | .dict kvs => .dict (convertEntries kvs)
  | v => .str (to_text v)
def convertList : List JValue → List JValue
  | [] => []
  | x :: xs => convert_value x :: convertList xs
def convertEntries : List (String × JValue) → List (String × JValue)
  | [] => []
  | (k, v) :: kvs => (k, convert_value v) :: convertEntries kvs
end

/-- First-match association-list lookup (Python dicts have unique keys,
so this is exactly `d[k]` / `d.get(k)` on well-formed values). -/
def lookupKey : List (String × JValue) → String → Option JValue
  | [], _ => none
  | (k2, v) :: rest, k => if k2 = k then some v else lookupKey rest k

/-- Python `d.get(k)` on a dict: stored value (possibly `None`) or `None`
when the key is absent; calling `.get` on anything else raises
`AttributeError`. -/
def pyGet (v : JValue) (k : String) : Except PyErr JValue :=
  match v with
  | .dict kvs => .ok ((lookupKey kvs k).getD .null)
  | _ => .error .attrError

/-- Python `d.get(k, default)` on a dict, `AttributeError` otherwise. -/
def pyGetD (v : JValue) (k : String) (d : JValue) : Except PyErr JValue :=
  match v with
  | .dict kvs => .ok ((lookupKey kvs k).getD d)
  | _ => .error .attrError

/-- Contiguous-substring test, Python `key in s` for strings
(`"" in s` is `True`, as in Python). -/
def hasSub : List Char → List Char → Bool
  | s, key =>
    match s with
    | [] => key.isEmpty
    | _ :: t => key.isPrefixOf s || hasSub t key

/-- `navigate_hash(source, path, default)` from
`module_utils/hcp_terraform_utils.py`.  Falsy sources short-circuit to
`None`; an empty path then indexes `path[0]` (IndexError); the
membership test `key not in source` behaves per the source type
(substring for strings, element equality for lists, `TypeError`
otherwise), and indexing a non-dict with a string key is a `TypeError`. -/
def navigate_hash (source : JValue) (path : List String) (default : JValue) :
    Except PyErr JValue :=
  if !truthy source then .ok .null
  else
    match path with
    | [] => .error .indexError
    | key :: rest =>
      match source with
      | .dict kvs =>
        if (kvs.map Prod.fst).contains key then
          let result := (lookupKey kvs key).getD .null
          if rest.isEmpty then .ok result else navigate_hash result rest default
        else .ok default
      | .str s =>
        if hasSub s.toList key.toList then .error .typeError else .ok default
      | .list xs =>
        if xs.any (fun v => decide (v = .str key)) then .error .typeError
        else .ok default
      | _ => .error .typeError

/- Structural size of a value, the termination measure of the comparator
(the source recursion is on the request side only). -/
mutual
def jsize : JValue → Nat
  | .null => 1
  | .bool _ => 1
  | .num _ => 1
  | .str _ => 1
  | .list xs => 1 + jsizeList xs
  | .dict kvs => 1 + jsizeEntries kvs
def jsizeList : List JValue → Nat
  | [] => 0
  | x :: xs => 1 + jsize x + jsizeList xs
def jsizeEntries : List (String × JValue) → Nat
  | [] => 0
  | (_, v) :: kvs => 1 + jsize v + jsizeEntries kvs
end

theorem jsize_pos : ∀ v, 1 ≤ jsize v := by
  intro v; cases v <;> simp [jsize]

mutual
theorem jsize_convert : ∀ v, jsize (convert_value v) = jsize v
  | .null => rfl
  | .bool _ => rfl
  | .num _ => rfl
  | .str _ => rfl
  | .list xs => by simp [convert_value, jsize, jsizeList_convert xs]
  | .dict kvs => by simp [convert_value, jsize, jsizeEntries_convert kvs]
theorem jsizeList_convert : ∀ xs, jsizeList (convertList xs) = jsizeList xs
  | [] => rfl
  | x :: xs => by simp [convertList, jsizeList, jsize_convert x, jsizeList_convert xs]
theorem jsizeEntries_convert : ∀ kvs, jsizeEntries (convertEntries kvs) = jsizeEntries kvs
  | [] => rfl
  | (k, v) :: kvs => by
      simp [convertEntries, jsizeEntries, jsize_convert v, jsizeEntries_convert kvs]
end

theorem jsize_mem_list {x : JValue} : ∀ {xs : List JValue}, x ∈ xs → jsize x ≤ jsizeList xs := by
  intro xs h
  induction xs with
  | nil => cases h
  | cons y ys ih =>
    rcases List.mem_cons.mp h with h1 | h2
    · subst h1; simp only [jsizeList]; omega
    · have := ih h2; simp only [jsizeList]; omega

theorem jsize_lookup {kvs : List (String × JValue)} {k : String} {v : JValue}
    (h : lookupKey kvs k = some v) : jsize v ≤ jsizeEntries kvs := by
  induction kvs with
  | nil => simp [lookupKey] at h
  | cons e rest ih =>
    obtain ⟨k2, w⟩ := e
    simp only [lookupKey] at h
    by_cases hk : k2 = k
    · simp [hk] at h; subst h; simp only [jsizeEntries]; omega
    · simp [hk] at h; have := ih h; simp only [jsizeEntries]; omega

/-- Python iteration over an (already `_convert_value`-converted) value:
lists yield their elements, strings their characters, dicts their keys.
The remaining constructors never occur as outputs of `convert_value`. -/
def pyIterElems : JValue → List JValue
  | .list xs => xs
  | .dict kvs => kvs.map (fun e => JValue.str e.1)
  | .str s => s.toList.map (fun c => JValue.str c.toString)
  | _ => []

/-- `bool(to_text(resp_value).capitalize() == "True")`: the boolean
coercion of `_compare_boolean`; exactly the texts whose Python
`capitalize` form is the literal `True` coerce to true. -/
def bool_coerce (v : JValue) : Bool :=
  decide (pyCapitalize (to_text v) = "True")

/-- `HcpRequest._compare_boolean`: coerce the response to text, Python
`capitalize` it, compare with the literal text True; `None` (no
difference) when the request boolean agrees, `True` otherwise.  The
`UnicodeError` fail-open branch of the source is unreachable here
because `to_text` is total on JSON values. -/
def compare_boolean (b : Bool) (resp : JValue) : JValue :=
  if b = bool_coerce resp then .null else .bool true

/- `HcpRequest._compare_value` / `_compare_dicts` / `_compare_lists`.
`compare_one_found` is the inner loop of `_compare_lists` computing
`found_item` for one request element: it visits EVERY response element
(the source has no break), so a crash in a later pair still propagates.
`_compare_lists` converts both lists before comparing; `_compare_dicts`
recurses only on keys whose response value is not `None`, and calling
`.get` on a non-dict response raises `AttributeError`. -/
mutual
def compare_value (req resp : JValue) : Except PyErr JValue :=
  match resp with
  | .null => .ok .null
  | _ =>
    match req with
    | .list l =>
      match compare_lists (convertList l) (pyIterElems (convert_value resp)) with
      | .error e => .error e
      | .ok d => .ok (.list d)
    | .dict d =>
      match compare_dicts d resp with
      | .error e => .error e
      | .ok kvs => .ok (.dict kvs)
    | .bool b => .ok (compare_boolean b resp)
    | _ => .ok (if to_text req = to_text resp then .null else req)
termination_by (jsize req, 2, 0)
decreasing_by
all_goals simp_wf
all_goals try simp only [jsize, jsizeList, jsizeEntries, jsizeList_convert, jsizeEntries_convert,
  List.length_cons]
all_goals first
  | (apply Prod.Lex.left; omega)
  | (apply Prod.Lex.right; first
      | (apply Prod.Lex.left; omega)
      | (apply Prod.Lex.right; omega))
def compare_dicts : List (String × JValue) → JValue → Except PyErr (List (String × JValue))
  | [], _ => .ok []
  | (k, v) :: rest, resp =>
    match resp with
    | .dict rkvs =>
      let rv := (lookupKey rkvs k).getD .null
      if rv = .null then compare_dicts rest resp
      else
        match compare_value v rv with
        | .error e => .error e
        | .ok d =>
          match compare_dicts rest resp with
          | .error e => .error e
          | .ok ds => .ok (if truthy d then (k, d) :: ds else ds)
    | _ => .error .attrError
termination_by entries _ => (1 + jsizeEntries entries, 1, 0)
decreasing_by
all_goals simp_wf
all_goals try simp only [jsize, jsizeList, jsizeEntries, jsizeList_convert, jsizeEntries_convert,
  List.length_cons]
all_goals first
  | (apply Prod.Lex.left; omega)
  | (apply Prod.Lex.right; first
      | (apply Prod.Lex.left; omega)
      | (apply Prod.Lex.right; omega))
def compare_lists : List JValue → List JValue → Except PyErr (List JValue)
  | [], _ => .ok []
  | r :: rest, resps =>
    match compare_one_found r resps with
    | .error e => .error e
    | .ok found =>
      match compare_lists rest resps with
      | .error e => .error e
      | .ok ds => .ok (if !found && truthy r then r :: ds else ds)
termination_by reqs _ => (1 + jsizeList reqs, 1, 0)
decreasing_by
all_goals simp_wf
all_goals try simp only [jsize, jsizeList, jsizeEntries, jsizeList_convert, jsizeEntries_convert,
  List.length_cons]
all_goals first
  | (apply Prod.Lex.left; omega)
  | (apply Prod.Lex.right; first
      | (apply Prod.Lex.left; omega)
      | (apply Prod.Lex.right; omega))
def compare_one_found : JValue → List JValue → Except PyErr Bool
  | _, [] => .ok false
  | r, x :: xs =>
    match compare_value r x with
    | .error e => .error e
    | .ok d =>
      match compare_one_found r xs with
      | .error e => .error e
      | .ok f => .ok (!truthy d || f)
termination_by r resps => (jsize r, 3, resps.length)
decreasing_by
all_goals simp_wf
all_goals try simp only [jsize, jsizeList, jsizeEntries, jsizeList_convert, jsizeEntries_convert,
  List.length_cons]
all_goals first
  | (apply Prod.Lex.left; omega)
  | (apply Prod.Lex.right; first
      | (apply Prod.Lex.left; omega)
      | (apply Prod.Lex.right; omega))
end

/-- `HcpRequest.difference(self, other)` compares `self.request` against
`other.request` with `_compare_value`. -/
def difference (request response : JValue) : Except PyErr JValue :=
  compare_value request response

/-- Keys of a Python dict are unique. -/
def nodupKeys : List String → Bool
  | [] => true
  | k :: ks => !ks.contains k && nodupKeys ks

/- Well-formedness of an embedded value: every dict below it has unique
keys, as every value decoded from JSON or built from module parameters
does in Python. -/
mutual
def wfJ : JValue → Bool
  | .list xs => wfL xs
  | .dict kvs => nodupKeys (kvs.map Prod.fst) && wfE kvs
  | _ => true
def wfL : List JValue → Bool
  | [] => true
  | x :: xs => wfJ x && wfL xs
def wfE : List (String × JValue) → Bool
  | [] => true
  | (_, v) :: kvs => wfJ v && wfE kvs
end

/- The crash-freedom domain of the comparator: `compare_value` raises
(`AttributeError`) exactly on the pairs excluded here, namely whenever a
dict on the request side is compared against a non-dict, non-`None`
response value — directly, under dict recursion, or between converted
list elements. -/
mutual
def crashFree (req resp : JValue) : Bool :=
  match resp with
  | .null => true
  | _ =>
    match req with
    | .list l => crashFreeLists (convertList l) (pyIterElems (convert_value resp))
    | .dict d => crashFreeDicts d resp
    | _ => true
termination_by (jsize req, 2, 0)
decreasing_by
all_goals simp_wf
all_goals try simp only [jsize, jsizeList, jsizeEntries, jsizeList_convert, jsizeEntries_convert,
  List.length_cons]
all_goals first
  | (apply Prod.Lex.left; omega)
  | (apply Prod.Lex.right; first
      | (apply Prod.Lex.left; omega)
      | (apply Prod.Lex.right; omega))
def crashFreeDicts : List (String × JValue) → JValue → Bool
  | [], _ => true
  | (k, v) :: rest, resp =>
    match resp with
    | .dict rkvs =>
      let rv := (lookupKey rkvs k).getD .null
      (if rv = .null then true else crashFree v rv) && crashFreeDicts rest resp
    | _ => false
termination_by entries _ => (1 + jsizeEntries entries, 1, 0)
decreasing_by
all_goals simp_wf
all_goals try simp only [jsize, jsizeList, jsizeEntries, jsizeList_convert, jsizeEntries_convert,
  List.length_cons]
all_goals first
  | (apply Prod.Lex.left; omega)
  | (apply Prod.Lex.right; first
      | (apply Prod.Lex.left; omega)
      | (apply Prod.Lex.right; omega))
def crashFreeLists : List JValue → List JValue → Bool
  | [], _ => true
  | r :: rest, resps => crashFreeOne r resps && crashFreeLists rest resps
termination_by reqs _ => (1 + jsizeList reqs, 1, 0)
decreasing_by
all_goals simp_wf
all_goals try simp only [jsize, jsizeList, jsizeEntries, jsizeList_convert, jsizeEntries_convert,
  List.length_cons]
all_goals first
  | (apply Prod.Lex.left; omega)
  | (apply Prod.Lex.right; first
      | (apply Prod.Lex.left; omega)
      | (apply Prod.Lex.right; omega))
def crashFreeOne : JValue → List JValue → Bool
  | _, [] => true
  | r, x :: xs => crashFree r x && crashFreeOne r xs
termination_by r resps => (jsize r, 3, resps.length)
decreasing_by
all_goals simp_wf
all_goals try simp only [jsize, jsizeList, jsizeEntries, jsizeList_convert, jsizeEntries_convert,
  List.length_cons]
all_goals first
  | (apply Prod.Lex.left; omega)
  | (apply Prod.Lex.right; first
      | (apply Prod.Lex.left; omega)
      | (apply Prod.Lex.right; omega))
end

/-- An HTTP response as the session layer sees it: status code plus the
outcome of `response.json()` (`none` models a JSON decode failure). -/
structure Response where
  status : Nat
  body : Option JValue

/-- `return_if_object` as written in the non-info resource modules
(`hcp_terraform_project.py` lines 271-302, `hcp_terraform_var.py`):
404/403 yield `None` only under `allow_not_found`, 204 always yields
`None`, a JSON decode failure is `fail_json`, a truthy top-level
`errors` value is `fail_json`; the HTTP status is not otherwise
consulted, so e.g. a 500 with a decodable error-free body is returned
as a normal result. -/
def return_if_object (resp : Response) (allow_not_found : Bool) : Except PyErr JValue :=
  if allow_not_found && resp.status == 404 then .ok .null
  else if resp.status == 204 then .ok .null
  else if allow_not_found && resp.status == 403 then .ok .null
  else
    match resp.body with
    | none => .error .failJson
    | some result =>
      match navigate_hash result ["errors"] .null with
      | .error e => .error e
      | .ok errv => if truthy errv then .error .failJson else .ok result

/-- Python `+` on the embedded values: concatenation for lists and
strings, addition for numbers (with bool as int), `TypeError` for the
rest. -/
def pyAdd : JValue → JValue → Except PyErr JValue
  | .list a, .list b => .ok (.list (a ++ b))
  | .str a, .str b => .ok (.str (a ++ b))
  | .num a, .num b => .ok (.num (a + b))
  | .bool a, .num b => .ok (.num ((if a then 1 else 0) + b))
  | .num a, .bool b => .ok (.num (a + (if b then 1 else 0)))
  | .bool a, .bool b => .ok (.num ((if a then 1 else 0) + (if b then 1 else 0)))
  | _, _ => .error .typeError

/-- Python dict assignment `d[k] = v`: overwrite in place when the key
exists, append otherwise. -/
def setParam (ps : List (String × JValue)) (k : String) (v : JValue) :
    List (String × JValue) :=
  if ps.any (fun q => q.1 == k) then ps.map (fun q => if q.1 == k then (k, v) else q)
  else ps ++ [(k, v)]

/-- Outcome of `HcpSession.list`: the accumulated `items` value, the
final contents of the local `params` dictionary, whether that dictionary
is still the caller-supplied object (`aliased`), and the query
parameters of every GET issued, in order. -/
structure ListResult where
  items : JValue
  params : List (String × JValue)
  aliased : Bool
  reqs : List (List (String × JValue))
deriving DecidableEq

/-- The `while navigate_hash(resp, [meta, pagination, pageToken])`
loop of `HcpSession.list`.  `fuel` bounds the number of iterations (the
source imposes no bound; `none` = the bound was hit).  On a truthy
cursor the code mutates `params[page-number]` when `params` is truthy
and otherwise rebinds `params` to a fresh dictionary, losing the aliasing
to the caller object. -/
def hcpListLoop (server : List (String × JValue) → Response)
    (callback : Response → Except PyErr JValue) (arrayName pageToken : String)
    (fuel : Nat) (items : JValue) (params : List (String × JValue)) (aliased : Bool)
    (reqs : List (List (String × JValue))) (resp : JValue) :
    Option (Except PyErr ListResult) :=
  match navigate_hash resp ["meta", "pagination", pageToken] .null with
  | .error e => some (.error e)
  | .ok cursor =>
    if truthy cursor then
      match fuel with
      | 0 => none
      | fuel + 1 =>
        let pa : List (String × JValue) × Bool :=
          if params.isEmpty then ([("page[number]", cursor)], false)
          else (setParam params "page[number]" cursor, aliased)
        match callback (server pa.1) with
        | .error e => some (.error e)
        | .ok resp2 =>
          match pyGet resp2 arrayName with
          | .error e => some (.error e)
          | .ok v =>
            if truthy v then
              match pyAdd items v with
              | .error e => some (.error e)
              | .ok items2 =>
                hcpListLoop server callback arrayName pageToken fuel items2 pa.1 pa.2
                  (reqs ++ [pa.1]) resp2
            else
              hcpListLoop server callback arrayName pageToken fuel items pa.1 pa.2
                (reqs ++ [pa.1]) resp2
    else some (.ok ⟨items, params, aliased, reqs⟩)

/-- `HcpSession.list(url, callback, params, array_name, pageToken)`.  The
HTTP GET is abstracted as `server : query-params → Response` (one fixed
URL per listing).  `params0 = none` models the `params=None` default,
`some ps` a caller-supplied dictionary; whether the local `params` is
still the caller object is tracked by `aliased`. -/
def hcpList (server : List (String × JValue) → Response)
    (callback : Response → Except PyErr JValue) (arrayName pageToken : String)
    (params0 : Option (List (String × JValue))) (fuel : Nat) :
    Option (Except PyErr ListResult) :=
  let p := params0.getD []
  match callback (server p) with
  | .error e => some (.error e)
  | .ok resp =>
    match pyGet resp arrayName with
    | .error e => some (.error e)
    | .ok v =>
      let items := if truthy v then v else .list []
      hcpListLoop server callback arrayName pageToken fuel items p params0.isSome [p] resp

/-- Contents of the caller-supplied `params` dictionary after
`HcpSession.list` returns: the final dictionary while it is still the
same object, the untouched original once the loop rebound `params`. -/
def callerParamsAfter (p0 : List (String × JValue)) (res : ListResult) :
    List (String × JValue) :=
  if res.aliased then res.params else p0

/-- `fetch_by_name` as shared by the project / varset / workspace
modules: `fail_json` when the listing returned more than one item, the
first item when exactly one, `None` when none. -/
def fetch_by_name (return_list : List JValue) : Except PyErr (Option JValue) :=
  if return_list.length > 1 then .error .failJson
  else
    match return_list with
    | [] => .ok none
    | x :: _ => .ok (some x)

/-- One iteration test of `fetch_by_key` (`hcp_terraform_var.py` line
290): `var.get("attributes").get("key") == module.params["key"] and the
same for the category field` (with an empty-dict default on the attributes get). -/
def var_matches (v : JValue) (key category : String) : Except PyErr Bool := do
  let attrs ← pyGetD v "attributes" (.dict [])
  let kv ← pyGet attrs "key"
  let cv ← pyGet attrs "category"
  pure (decide (kv = .str key) && decide (cv = .str category))

/-- `fetch_by_key` (`hcp_terraform_var.py` / `hcp_terraform_var_info.py`):
scan the fetched variable list in order and return the FIRST item whose
`attributes.key` and `attributes.category` both match; `None` when no
item matches.  There is no ambiguity check. -/
def fetch_by_key (data : List JValue) (key category : String) :
    Except PyErr (Option JValue) :=
  match data with
  | [] => .ok none
  | v :: rest =>
    match var_matches v key category with
    | .error e => .error e
    | .ok true => .ok (some v)
    | .ok false => fetch_by_key rest key category

example : navigate_hash (.dict [("key", .str "value")]) ["key"] .null = .ok (.str "value") := by decide
example : navigate_hash (.dict [("key", .dict [("key2", .str "value")])]) ["key", "key2"] .null = .ok (.str "value") := by decide
example : navigate_hash (.dict [("key", .str "value")]) ["key", "key2"] (.str "not found") = .ok (.str "not found") := by decide

/-! ## Helper lemmas -/

theorem convertList_eq_map (xs : List JValue) : convertList xs = xs.map convert_value := by
  induction xs with
  | nil => rfl
  | cons x xs ih => simp [convertList, ih]

theorem pyIterElems_convert_list (xs : List JValue) :
    pyIterElems (convert_value (.list xs)) = convertList xs := rfl

theorem lookup_contains (kvs : List (String × JValue)) (k : String) :
    (kvs.map Prod.fst).contains k = (lookupKey kvs k).isSome := by
  induction kvs with
  | nil => rfl
  | cons e rest ih =>
    obtain ⟨k2, v⟩ := e
    simp only [List.map_cons, List.contains_cons]
    by_cases h : k2 = k
    · subst h; simp [lookupKey]
    · have hne : (k == k2) = false := beq_eq_false_iff_ne.mpr (Ne.symm h)
      rw [ih]
      simp [lookupKey, h, hne]

theorem lookup_isSome_of_mem {kvs : List (String × JValue)} {k : String} {v : JValue}
    (hm : (k, v) ∈ kvs) : (lookupKey kvs k).isSome = true := by
  induction kvs with
  | nil => cases hm
  | cons e rest ih =>
    obtain ⟨k2, w⟩ := e
    rcases List.mem_cons.mp hm with h1 | h2
    · cases h1; simp [lookupKey]
    · by_cases hk : k2 = k
      · simp [lookupKey, hk]
      · simp [lookupKey, hk, ih h2]

theorem lookup_of_nodup {kvs : List (String × JValue)}
    (hnd : nodupKeys (kvs.map Prod.fst) = true) {k : String} {v : JValue}
    (hm : (k, v) ∈ kvs) : lookupKey kvs k = some v := by
  induction kvs with
  | nil => cases hm
  | cons e rest ih =>
    obtain ⟨k2, w⟩ := e
    simp only [List.map_cons, nodupKeys, Bool.and_eq_true, Bool.not_eq_true'] at hnd
    rcases List.mem_cons.mp hm with h1 | h2
    · cases h1; simp [lookupKey]
    · by_cases hk : k2 = k
      · subst hk
        have h3 := lookup_isSome_of_mem h2
        rw [lookup_contains] at hnd
        rw [hnd.1] at h3
        cases h3
      · simp [lookupKey, hk, ih hnd.2 h2]

theorem compare_value_nullresp (req : JValue) : compare_value req .null = .ok .null := by
  rw [compare_value.eq_def]

theorem compare_value_list (l : List JValue) (resp : JValue) (h : resp ≠ .null) :
    compare_value (.list l) resp
    = match compare_lists (convertList l) (pyIterElems (convert_value resp)) with
      | .error e => .error e
      | .ok d => .ok (.list d) := by
  rw [compare_value.eq_def]; cases resp <;> simp_all

theorem compare_value_dictreq (d : List (String × JValue)) (resp : JValue) (h : resp ≠ .null) :
    compare_value (.dict d) resp
    = match compare_dicts d resp with
      | .error e => .error e
      | .ok kvs => .ok (.dict kvs) := by
  rw [compare_value.eq_def]; cases resp <;> simp_all

theorem compare_value_boolreq (b : Bool) (resp : JValue) (h : resp ≠ .null) :
    compare_value (.bool b) resp = .ok (compare_boolean b resp) := by
  rw [compare_value.eq_def]; cases resp <;> simp_all

theorem compare_value_nullreq (resp : JValue) (h : resp ≠ .null) :
    compare_value .null resp
    = .ok (if to_text .null = to_text resp then .null else .null) := by
  rw [compare_value.eq_def]; cases resp <;> simp_all

theorem compare_value_numreq (n : Int) (resp : JValue) (h : resp ≠ .null) :
    compare_value (.num n) resp
    = .ok (if to_text (.num n) = to_text resp then .null else .num n) := by
  rw [compare_value.eq_def]; cases resp <;> simp_all

theorem compare_value_strreq (s : String) (resp : JValue) (h : resp ≠ .null) :
    compare_value (.str s) resp
    = .ok (if to_text (.str s) = to_text resp then .null else .str s) := by
  rw [compare_value.eq_def]; cases resp <;> simp_all

theorem mem_convertList {x : JValue} {xs : List JValue} (h : x ∈ convertList xs) :
    ∃ y ∈ xs, x = convert_value y := by
  induction xs with
  | nil => simp [convertList] at h
  | cons y ys ih =>
    rw [convertList] at h
    rcases List.mem_cons.mp h with h1 | h2
    · exact ⟨y, List.mem_cons_self y ys, h1⟩
    · obtain ⟨z, hz, he⟩ := ih h2
      exact ⟨z, List.mem_cons_of_mem y hz, he⟩

theorem jsize_mem_convertList {x : JValue} {xs : List JValue} (h : x ∈ convertList xs) :
    jsize x ≤ jsizeList xs := by
  obtain ⟨y, hy, he⟩ := mem_convertList h
  subst he
  rw [jsize_convert]
  exact jsize_mem_list hy

theorem jsize_mem_entries {kv : String × JValue} {kvs : List (String × JValue)} (h : kv ∈ kvs) :
    jsize kv.2 ≤ jsizeEntries kvs := by
  induction kvs with
  | nil => cases h
  | cons e rest ih =>
    obtain ⟨a, b⟩ := e
    rcases List.mem_cons.mp h with h1 | h2
    · subst h1; simp only [jsizeEntries]; omega
    · have := ih h2; simp only [jsizeEntries]; omega

/-- Bool view of success of an embedded computation. -/
def isOkE {α : Type} : Except PyErr α → Bool
  | .ok _ => true
  | .error _ => false

theorem crashFree_nullresp (req : JValue) : crashFree req .null = true := by
  rw [crashFree.eq_def]

theorem crashFree_list (l : List JValue) (resp : JValue) (h : resp ≠ .null) :
    crashFree (.list l) resp
    = crashFreeLists (convertList l) (pyIterElems (convert_value resp)) := by
  rw [crashFree.eq_def]; cases resp <;> simp_all

theorem crashFree_dictreq (d : List (String × JValue)) (resp : JValue) (h : resp ≠ .null) :
    crashFree (.dict d) resp = crashFreeDicts d resp := by
  rw [crashFree.eq_def]; cases resp <;> simp_all

theorem crashFree_nullreq (resp : JValue) (h : resp ≠ .null) :
    crashFree .null resp = true := by
  rw [crashFree.eq_def]; cases resp <;> simp_all

theorem crashFree_boolreq (b : Bool) (resp : JValue) (h : resp ≠ .null) :
    crashFree (.bool b) resp = true := by
  rw [crashFree.eq_def]; cases resp <;> simp_all

theorem crashFree_numreq (n : Int) (resp : JValue) (h : resp ≠ .null) :
    crashFree (.num n) resp = true := by
  rw [crashFree.eq_def]; cases resp <;> simp_all

theorem crashFree_strreq (s : String) (resp : JValue) (h : resp ≠ .null) :
    crashFree (.str s) resp = true := by
  rw [crashFree.eq_def]; cases resp <;> simp_all

theorem compare_one_found_isOk (r : JValue) (resps : List JValue)
    (h : ∀ x, isOkE (compare_value r x) = crashFree r x) :
    isOkE (compare_one_found r resps) = crashFreeOne r resps := by
  induction resps with
  | nil => simp [compare_one_found, crashFreeOne, isOkE]
  | cons x xs ih =>
    have hx := h x
    simp only [compare_one_found, crashFreeOne]
    cases hcv : compare_value r x with
    | error e =>
      have hx2 : crashFree r x = false := by rw [← hx, hcv]; rfl
      simp [isOkE, hx2]
    | ok d =>
      have hx2 : crashFree r x = true := by rw [← hx, hcv]; rfl
      cases hre : compare_one_found r xs with
      | error e =>
        have ih2 : crashFreeOne r xs = false := by rw [← ih, hre]; rfl
        simp [isOkE, hx2, ih2]
      | ok f =>
        have ih2 : crashFreeOne r xs = true := by rw [← ih, hre]; rfl
        simp [isOkE, hx2, ih2]

theorem compare_lists_isOk (reqs resps : List JValue)
    (h : ∀ r ∈ reqs, ∀ x, isOkE (compare_value r x) = crashFree r x) :
    isOkE (compare_lists reqs resps) = crashFreeLists reqs resps := by
  induction reqs with
  | nil => simp [compare_lists, crashFreeLists, isOkE]
  | cons r rest ih =>
    have h1 := compare_one_found_isOk r resps (h r (List.mem_cons_self r rest))
    have ihh := ih (fun y hy => h y (List.mem_cons_of_mem r hy))
    simp only [compare_lists, crashFreeLists]
    cases hof : compare_one_found r resps with
    | error e =>
      have h2 : crashFreeOne r resps = false := by rw [← h1, hof]; rfl
      simp [isOkE, h2]
    | ok f =>
      have h2 : crashFreeOne r resps = true := by rw [← h1, hof]; rfl
      cases hcl : compare_lists rest resps with
      | error e =>
        have ih2 : crashFreeLists rest resps = false := by rw [← ihh, hcl]; rfl
        simp [isOkE, h2, ih2]
      | ok ds =>
        have ih2 : crashFreeLists rest resps = true := by rw [← ihh, hcl]; rfl
        by_cases hc : (!f && truthy r) = true <;> simp [isOkE, h2, ih2, hc]

theorem compare_dicts_isOk (entries : List (String × JValue)) (resp : JValue)
    (h : ∀ kv ∈ entries, ∀ rv, isOkE (compare_value kv.2 rv) = crashFree kv.2 rv) :
    isOkE (compare_dicts entries resp) = crashFreeDicts entries resp := by
  induction entries with
  | nil => simp [compare_dicts, crashFreeDicts, isOkE]
  | cons e rest ih =>
    obtain ⟨k, v⟩ := e
    have hv := h (k, v) (List.mem_cons_self _ rest)
    have ihh := ih (fun kv hkv rv => h kv (List.mem_cons_of_mem _ hkv) rv)
    cases resp with
    | dict rkvs =>
      simp only [compare_dicts, crashFreeDicts]
      by_cases hrv : (lookupKey rkvs k).getD .null = .null
      · simp only [hrv, if_pos rfl, if_true, true_and]
        simpa using ihh
      · simp only [if_neg hrv]
        have hv2 := hv ((lookupKey rkvs k).getD .null)
        cases hcv : compare_value v ((lookupKey rkvs k).getD .null) with
        | error e2 =>
          have hv3 : crashFree v ((lookupKey rkvs k).getD .null) = false := by
            rw [← hv2, hcv]; rfl
          simp [isOkE, hv3]
        | ok d =>
          have hv3 : crashFree v ((lookupKey rkvs k).getD .null) = true := by
            rw [← hv2, hcv]; rfl
          cases hcd : compare_dicts rest (.dict rkvs) with
          | error e2 =>
            have ih2 : crashFreeDicts rest (.dict rkvs) = false := by rw [← ihh, hcd]; rfl
            simp [isOkE, hv3, ih2]
          | ok ds =>
            have ih2 : crashFreeDicts rest (.dict rkvs) = true := by rw [← ihh, hcd]; rfl
            by_cases hc : truthy d = true <;> simp [isOkE, hv3, ih2, hc]
    | null => simp [compare_dicts, crashFreeDicts, isOkE]
    | bool b => simp [compare_dicts, crashFreeDicts, isOkE]
    | num n => simp [compare_dicts, crashFreeDicts, isOkE]
    | str s2 => simp [compare_dicts, crashFreeDicts, isOkE]
    | list xs => simp [compare_dicts, crashFreeDicts, isOkE]

theorem compare_isOk_n : ∀ (n : Nat) (req resp : JValue), jsize req ≤ n →
    isOkE (compare_value req resp) = crashFree req resp := by
  intro n
  induction n using Nat.strong_induction_on with
  | _ n ih =>
    intro req resp hle
    by_cases hresp : resp = .null
    · subst hresp; simp [compare_value_nullresp, crashFree_nullresp, isOkE]
    · cases req with
      | list l =>
        rw [compare_value_list l resp hresp, crashFree_list l resp hresp]
        have hlt : jsizeList l < n := by
          simp only [jsize] at hle; omega
        have h : ∀ r ∈ convertList l, ∀ x, isOkE (compare_value r x) = crashFree r x := by
          intro r hr x
          exact ih (jsizeList l) hlt r x (jsize_mem_convertList hr)
        have hcl := compare_lists_isOk (convertList l) (pyIterElems (convert_value resp)) h
        cases hc : compare_lists (convertList l) (pyIterElems (convert_value resp)) with
        | error e => rw [hc] at hcl; simp [isOkE] at hcl; simp [isOkE, ← hcl]
        | ok ds => rw [hc] at hcl; simp [isOkE] at hcl; simp [isOkE, ← hcl]
      | dict d =>
        rw [compare_value_dictreq d resp hresp, crashFree_dictreq d resp hresp]
        have hlt : jsizeEntries d < n := by
          simp only [jsize] at hle; omega
        have h : ∀ kv ∈ d, ∀ rv, isOkE (compare_value kv.2 rv) = crashFree kv.2 rv := by
          intro kv hkv rv
          exact ih (jsizeEntries d) hlt kv.2 rv (jsize_mem_entries hkv)
        have hcd := compare_dicts_isOk d resp h
        cases hc : compare_dicts d resp with
        | error e => rw [hc] at hcd; simp [isOkE] at hcd; simp [isOkE, ← hcd]
        | ok ds => rw [hc] at hcd; simp [isOkE] at hcd; simp [isOkE, ← hcd]
      | bool b =>
        rw [compare_value_boolreq b resp hresp, crashFree_boolreq b resp hresp]; rfl
      | null =>
        rw [compare_value_nullreq resp hresp, crashFree_nullreq resp hresp]; rfl
      | num m =>
        rw [compare_value_numreq m resp hresp, crashFree_numreq m resp hresp]; rfl
      | str s =>
        rw [compare_value_strreq s resp hresp, crashFree_strreq s resp hresp]; rfl

theorem compare_isOk (req resp : JValue) :
    isOkE (compare_value req resp) = crashFree req resp :=
  compare_isOk_n (jsize req) req resp (le_refl _)

theorem convertEntries_keys (kvs : List (String × JValue)) :
    (convertEntries kvs).map Prod.fst = kvs.map Prod.fst := by
  induction kvs with
  | nil => rfl
  | cons e rest ih => obtain ⟨k, v⟩ := e; simp [convertEntries, ih]

mutual
theorem wfJ_convert : ∀ v, wfJ v = true → wfJ (convert_value v) = true
  | .null, _ => rfl
  | .bool _, _ => rfl
  | .num _, _ => rfl
  | .str _, _ => rfl
  | .list xs, h => by
      rw [convert_value]
      simp only [wfJ] at h ⊢
      exact wfL_convert xs h
  | .dict kvs, h => by
      rw [convert_value]
      simp only [wfJ, convertEntries_keys, Bool.and_eq_true] at h ⊢
      exact ⟨h.1, wfE_convert kvs h.2⟩
theorem wfL_convert : ∀ xs, wfL xs = true → wfL (convertList xs) = true
  | [], _ => rfl
  | x :: xs, h => by
      simp only [convertList, wfL, Bool.and_eq_true] at h ⊢
      exact ⟨wfJ_convert x h.1, wfL_convert xs h.2⟩
theorem wfE_convert : ∀ kvs, wfE kvs = true → wfE (convertEntries kvs) = true
  | [], _ => rfl
  | (k, v) :: kvs, h => by
      simp only [convertEntries, wfE, Bool.and_eq_true] at h ⊢
      exact ⟨wfJ_convert v h.1, wfE_convert kvs h.2⟩
end

theorem wfL_mem {xs : List JValue} (h : wfL xs = true) {x : JValue} (hx : x ∈ xs) :
    wfJ x = true := by
  induction xs with
  | nil => cases hx
  | cons y ys ih =>
    simp only [wfL, Bool.and_eq_true] at h
    rcases List.mem_cons.mp hx with h1 | h2
    · subst h1; exact h.1
    · exact ih h.2 h2

theorem wfE_mem {kvs : List (String × JValue)} (h : wfE kvs = true)
    {kv : String × JValue} (hkv : kv ∈ kvs) : wfJ kv.2 = true := by
  induction kvs with
  | nil => cases hkv
  | cons e rest ih =>
    obtain ⟨k, v⟩ := e
    simp only [wfE, Bool.and_eq_true] at h
    rcases List.mem_cons.mp hkv with h1 | h2
    · subst h1; exact h.1
    · exact ih h.2 h2

theorem compare_one_found_all_ok {r : JValue} {resps : List JValue} {f : Bool}
    (hok : compare_one_found r resps = .ok f) :
    ∀ x ∈ resps, ∃ d, compare_value r x = .ok d := by
  induction resps generalizing f with
  | nil => intro x hx; cases hx
  | cons y ys ih =>
    intro x hx
    rw [compare_one_found] at hok
    cases hcv : compare_value r y with
    | error e => rw [hcv] at hok; cases hok
    | ok d =>
      rw [hcv] at hok
      cases hre : compare_one_found r ys with
      | error e => rw [hre] at hok; cases hok
      | ok g =>
        rcases List.mem_cons.mp hx with h1 | h2
        · subst h1; exact ⟨d, hcv⟩
        · exact ih hre x h2

theorem compare_one_found_found {r : JValue} {resps : List JValue} {f : Bool}
    (hok : compare_one_found r resps = .ok f) {x : JValue} (hx : x ∈ resps)
    {d : JValue} (hcv : compare_value r x = .ok d) (hd : truthy d = false) :
    f = true := by
  induction resps generalizing f with
  | nil => cases hx
  | cons y ys ih =>
    rw [compare_one_found] at hok
    cases hcy : compare_value r y with
    | error e => rw [hcy] at hok; cases hok
    | ok dy =>
      rw [hcy] at hok
      cases hre : compare_one_found r ys with
      | error e => rw [hre] at hok; cases hok
      | ok g =>
        rw [hre] at hok
        rcases List.mem_cons.mp hx with h1 | h2
        · subst h1
          rw [hcv] at hcy
          cases hcy
          cases hok
          simp [hd]
        · have := ih hre h2
          cases hok
          simp [this]

theorem compare_lists_refl_sub {reqs resps : List JValue}
    (hsub : ∀ r ∈ reqs, r ∈ resps)
    (h : ∀ r ∈ reqs, ∀ d, compare_value r r = .ok d → truthy d = false)
    {ds : List JValue} (hok : compare_lists reqs resps = .ok ds) : ds = [] := by
  induction reqs generalizing ds with
  | nil => rw [compare_lists] at hok; cases hok; rfl
  | cons r rest ih =>
    rw [compare_lists] at hok
    cases hof : compare_one_found r resps with
    | error e => rw [hof] at hok; cases hok
    | ok f =>
      rw [hof] at hok
      cases hcl : compare_lists rest resps with
      | error e => rw [hcl] at hok; cases hok
      | ok ds2 =>
        rw [hcl] at hok
        have hrmem : r ∈ resps := hsub r (List.mem_cons_self r rest)
        obtain ⟨d, hd⟩ := compare_one_found_all_ok hof r hrmem
        have hdf : truthy d = false := h r (List.mem_cons_self r rest) d hd
        have hf : f = true := compare_one_found_found hof hrmem hd hdf
        subst hf
        simp only [Bool.not_true, Bool.false_and, Bool.false_eq_true, if_false] at hok
        cases hok
        exact ih (fun q hq => hsub q (List.mem_cons_of_mem r hq))
          (fun q hq => h q (List.mem_cons_of_mem r hq)) hcl

theorem compare_dicts_refl {entries full : List (String × JValue)}
    (hlook : ∀ kv ∈ entries, lookupKey full kv.1 = some kv.2)
    (h : ∀ kv ∈ entries, ∀ d, compare_value kv.2 kv.2 = .ok d → truthy d = false)
    {ds : List (String × JValue)}
    (hok : compare_dicts entries (.dict full) = .ok ds) : ds = [] := by
  induction entries generalizing ds with
  | nil => rw [compare_dicts] at hok; cases hok; rfl
  | cons e rest ih =>
    obtain ⟨k, v⟩ := e
    rw [compare_dicts] at hok
    have hlk : lookupKey full k = some v := hlook (k, v) (List.mem_cons_self _ rest)
    simp only [hlk, Option.getD_some] at hok
    by_cases hv : v = .null
    · rw [if_pos hv] at hok
      exact ih (fun kv hkv => hlook kv (List.mem_cons_of_mem _ hkv))
        (fun kv hkv => h kv (List.mem_cons_of_mem _ hkv)) hok
    · rw [if_neg hv] at hok
      cases hcv : compare_value v v with
      | error e2 => rw [hcv] at hok; cases hok
      | ok d =>
        rw [hcv] at hok
        cases hcd : compare_dicts rest (.dict full) with
        | error e2 => rw [hcd] at hok; cases hok
        | ok ds2 =>
          rw [hcd] at hok
          have hdf : truthy d = false := h (k, v) (List.mem_cons_self _ rest) d hcv
          simp only [hdf, Bool.false_eq_true, if_false] at hok
          cases hok
          exact ih (fun kv hkv => hlook kv (List.mem_cons_of_mem _ hkv))
            (fun kv hkv => h kv (List.mem_cons_of_mem _ hkv)) hcd

theorem compare_refl_n : ∀ (n : Nat) (R : JValue), jsize R ≤ n → wfJ R = true →
    ∀ d, compare_value R R = .ok d → truthy d = false := by
  intro n
  induction n using Nat.strong_induction_on with
  | _ n ih =>
    intro R hle hwf d hok
    cases R with
    | null =>
      rw [compare_value_nullresp] at hok
      cases hok; rfl
    | bool b =>
      rw [compare_value_boolreq b (.bool b) (by simp)] at hok
      cases b <;> cases hok <;> decide
    | num m =>
      rw [compare_value_numreq m (.num m) (by simp)] at hok
      rw [if_pos rfl] at hok
      cases hok; rfl
    | str s =>
      rw [compare_value_strreq s (.str s) (by simp)] at hok
      rw [if_pos rfl] at hok
      cases hok; rfl
    | dict kvs =>
      rw [compare_value_dictreq kvs (.dict kvs) (by simp)] at hok
      cases hcd : compare_dicts kvs (.dict kvs) with
      | error e => rw [hcd] at hok; cases hok
      | ok ds =>
        rw [hcd] at hok
        cases hok
        simp only [wfJ, Bool.and_eq_true] at hwf
        have hds : ds = [] := by
          refine compare_dicts_refl (fun kv hkv => ?_) (fun kv hkv d2 hd2 => ?_) hcd
          · obtain ⟨a, b⟩ := kv
            exact lookup_of_nodup hwf.1 hkv
          · have hsz : jsize kv.2 ≤ jsizeEntries kvs := jsize_mem_entries hkv
            have hlt : jsizeEntries kvs < n := by simp only [jsize] at hle; omega
            exact ih (jsizeEntries kvs) hlt kv.2 hsz (wfE_mem hwf.2 hkv) d2 hd2
        subst hds
        rfl
    | list xs =>
      rw [compare_value_list xs (.list xs) (by simp)] at hok
      rw [pyIterElems_convert_list] at hok
      cases hcl : compare_lists (convertList xs) (convertList xs) with
      | error e => rw [hcl] at hok; cases hok
      | ok ds =>
        rw [hcl] at hok
        cases hok
        simp only [wfJ] at hwf
        have hds : ds = [] := by
          refine compare_lists_refl_sub (fun r hr => hr) (fun r hr d2 hd2 => ?_) hcl
          have hsz : jsize r ≤ jsizeList xs := jsize_mem_convertList hr
          have hlt : jsizeList xs < n := by simp only [jsize] at hle; omega
          obtain ⟨y, hy, he⟩ := mem_convertList hr
          have hwfr : wfJ r = true := by rw [he]; exact wfJ_convert y (wfL_mem hwf hy)
          exact ih (jsizeList xs) hlt r hsz hwfr d2 hd2
        subst hds
        rfl

theorem compare_refl (R : JValue) (hwf : wfJ R = true) :
    ∀ d, compare_value R R = .ok d → truthy d = false :=
  compare_refl_n (jsize R) R (le_refl _) hwf

/-- The `found_item` flag of `_compare_lists`, stated declaratively:
some element of `resps` compares against `r` with a falsy difference. -/
def matchedIn (r : JValue) (resps : List JValue) : Bool :=
  resps.any (fun x =>
    match compare_value r x with
    | .ok d => !truthy d
    | .error _ => false)

theorem compare_one_found_eq {r : JValue} {resps : List JValue} {f : Bool}
    (hok : compare_one_found r resps = .ok f) : f = matchedIn r resps := by
  induction resps generalizing f with
  | nil => rw [compare_one_found] at hok; cases hok; rfl
  | cons x xs ih =>
    rw [compare_one_found] at hok
    cases hcv : compare_value r x with
    | error e => rw [hcv] at hok; cases hok
    | ok d =>
      rw [hcv] at hok
      cases hre : compare_one_found r xs with
      | error e => rw [hre] at hok; cases hok
      | ok g =>
        rw [hre] at hok
        cases hok
        simp [matchedIn, List.any_cons, hcv, ih hre, Bool.or_comm]

theorem compare_lists_filter {reqs resps : List JValue} {ds : List JValue}
    (hok : compare_lists reqs resps = .ok ds) :
    ds = reqs.filter (fun r => !matchedIn r resps && truthy r) := by
  induction reqs generalizing ds with
  | nil => rw [compare_lists] at hok; cases hok; rfl
  | cons r rest ih =>
    rw [compare_lists] at hok
    cases hof : compare_one_found r resps with
    | error e => rw [hof] at hok; cases hok
    | ok f =>
      rw [hof] at hok
      cases hcl : compare_lists rest resps with
      | error e => rw [hcl] at hok; cases hok
      | ok ds2 =>
        rw [hcl] at hok
        cases hok
        have hf := compare_one_found_eq hof
        subst hf
        rw [List.filter_cons]
        by_cases hc : (!matchedIn r resps && truthy r) = true
        · simp only [hc, if_true, ih hcl]
        · simp only [Bool.not_eq_true] at hc
          simp only [hc, if_false, ih hcl]

theorem any_perm {α : Type} {p : α → Bool} {l1 l2 : List α} (hp : l1.Perm l2) :
    l1.any p = l2.any p := by
  cases h1 : l1.any p <;> cases h2 : l2.any p <;> try rfl
  · exfalso
    rw [List.any_eq_true] at h2
    obtain ⟨x, hx, hpx⟩ := h2
    have : l1.any p = true := List.any_eq_true.mpr ⟨x, hp.mem_iff.mpr hx, hpx⟩
    rw [h1] at this; cases this
  · exfalso
    rw [List.any_eq_true] at h1
    obtain ⟨x, hx, hpx⟩ := h1
    have : l2.any p = true := List.any_eq_true.mpr ⟨x, hp.mem_iff.mp hx, hpx⟩
    rw [h2] at this; cases this

theorem all_perm {α : Type} {p : α → Bool} {l1 l2 : List α} (hp : l1.Perm l2) :
    l1.all p = l2.all p := by
  cases h1 : l1.all p <;> cases h2 : l2.all p <;> try rfl
  · exfalso
    rw [List.all_eq_false] at h1
    obtain ⟨x, hx, hpx⟩ := h1
    rw [List.all_eq_true] at h2
    exact hpx (h2 x (hp.mem_iff.mp hx))
  · exfalso
    rw [List.all_eq_false] at h2
    obtain ⟨x, hx, hpx⟩ := h2
    rw [List.all_eq_true] at h1
    exact hpx (h1 x (hp.mem_iff.mpr hx))

theorem matchedIn_perm {r : JValue} {l1 l2 : List JValue} (hp : l1.Perm l2) :
    matchedIn r l1 = matchedIn r l2 :=
  any_perm hp

theorem crashFreeOne_eq_all (r : JValue) (resps : List JValue) :
    crashFreeOne r resps = resps.all (fun x => crashFree r x) := by
  induction resps with
  | nil => simp [crashFreeOne]
  | cons x xs ih => simp [crashFreeOne, List.all_cons, ih]

theorem crashFreeLists_perm (reqs : List JValue) {l1 l2 : List JValue} (hp : l1.Perm l2) :
    crashFreeLists reqs l1 = crashFreeLists reqs l2 := by
  induction reqs with
  | nil => simp [crashFreeLists]
  | cons r rest ih =>
    simp only [crashFreeLists, crashFreeOne_eq_all, ih, all_perm hp]

theorem compare_lists_nilresp (reqs : List JValue) :
    compare_lists reqs [] = .ok (reqs.filter truthy) := by
  induction reqs with
  | nil => simp [compare_lists]
  | cons r rest ih =>
    rw [compare_lists, compare_one_found, ih]
    rw [List.filter_cons]
    by_cases hc : truthy r = true
    · simp [hc]
    · simp only [Bool.not_eq_true] at hc
      simp [hc]

theorem lookup_map_set (ps : List (String × JValue)) (k : String) (v : JValue)
    {k2 : String} (h : k2 ≠ k) :
    lookupKey (ps.map (fun q => if q.1 == k then (k, v) else q)) k2 = lookupKey ps k2 := by
  induction ps with
  | nil => rfl
  | cons e rest ih =>
    obtain ⟨a, b⟩ := e
    by_cases hak : (a == k) = true
    · have hak2 : a = k := by simpa using hak
      subst hak2
      simp only [List.map_cons, hak, if_true]
      rw [lookupKey, lookupKey, if_neg (Ne.symm h), if_neg (Ne.symm h), ih]
    · simp only [List.map_cons, hak, if_false, Bool.false_eq_true]
      rw [lookupKey, lookupKey]
      by_cases hae : a = k2
      · simp [hae]
      · simp only [if_neg hae, ih]

theorem lookup_append_single (ps : List (String × JValue)) (k : String) (v : JValue)
    {k2 : String} (h : k2 ≠ k) :
    lookupKey (ps ++ [(k, v)]) k2 = lookupKey ps k2 := by
  induction ps with
  | nil => simp [lookupKey, Ne.symm h]
  | cons e rest ih =>
    obtain ⟨a, b⟩ := e
    by_cases hae : a = k2
    · simp [lookupKey, hae]
    · simp only [List.cons_append, lookupKey, if_neg hae, List.append_eq, ih]

theorem setParam_lookup_ne (ps : List (String × JValue)) (k : String) (v : JValue)
    {k2 : String} (h : k2 ≠ k) : lookupKey (setParam ps k v) k2 = lookupKey ps k2 := by
  unfold setParam
  by_cases ha : ps.any (fun q => q.1 == k) = true
  · rw [if_pos ha]; exact lookup_map_set ps k v h
  · rw [if_neg ha]; exact lookup_append_single ps k v h

theorem setParam_ne_nil (ps : List (String × JValue)) (k : String) (v : JValue) :
    setParam ps k v ≠ [] := by
  unfold setParam
  by_cases ha : ps.any (fun q => q.1 == k) = true
  · rw [if_pos ha]
    intro hc
    rw [List.map_eq_nil_iff] at hc
    subst hc
    simp at ha
  · rw [if_neg ha]
    simp

theorem hcpListLoop_frame (server : List (String × JValue) → Response)
    (cb : Response → Except PyErr JValue) (arrayName pageToken : String)
    (p0 : List (String × JValue)) :
    ∀ (fuel : Nat) (items : JValue) (params : List (String × JValue))
      (reqs : List (List (String × JValue))) (resp : JValue) (res : ListResult),
    params ≠ [] →
    (∀ k, k ≠ "page[number]" → lookupKey params k = lookupKey p0 k) →
    (∀ q ∈ reqs, ∀ k, k ≠ "page[number]" → lookupKey q k = lookupKey p0 k) →
    hcpListLoop server cb arrayName pageToken fuel items params true reqs resp
      = some (.ok res) →
    res.aliased = true ∧
    (∀ k, k ≠ "page[number]" → lookupKey res.params k = lookupKey p0 k) ∧
    (∀ q ∈ res.reqs, ∀ k, k ≠ "page[number]" → lookupKey q k = lookupKey p0 k) := by
  intro fuel
  induction fuel with
  | zero =>
    intro items params reqs resp res hne hparams hreqs hok
    rw [hcpListLoop] at hok
    cases hnav : navigate_hash resp ["meta", "pagination", pageToken] .null with
    | error e => rw [hnav] at hok; cases hok
    | ok cursor =>
      rw [hnav] at hok
      by_cases hc : truthy cursor = true
      · simp [hc] at hok
      · simp only [Bool.not_eq_true] at hc
        simp only [hc, Bool.false_eq_true, if_false] at hok
        cases hok
        exact ⟨rfl, hparams, hreqs⟩
  | succ n ih =>
    intro items params reqs resp res hne hparams hreqs hok
    rw [hcpListLoop] at hok
    cases hnav : navigate_hash resp ["meta", "pagination", pageToken] .null with
    | error e => rw [hnav] at hok; cases hok
    | ok cursor =>
      rw [hnav] at hok
      by_cases hc : truthy cursor = true
      · have hemp : params.isEmpty = false := by
          cases params with
          | nil => exact absurd rfl hne
          | cons a b => rfl
        simp only [hc, if_true, hemp, Bool.false_eq_true, if_false] at hok
        cases hcb : cb (server (setParam params "page[number]" cursor)) with
        | error e => simp [hcb] at hok
        | ok resp2 =>
          simp only [hcb] at hok
          cases hpg : pyGet resp2 arrayName with
          | error e => simp [hpg] at hok
          | ok v =>
            simp only [hpg] at hok
            have hne2 : setParam params "page[number]" cursor ≠ [] :=
              setParam_ne_nil params _ cursor
            have hparams2 : ∀ k, k ≠ "page[number]" →
                lookupKey (setParam params "page[number]" cursor) k = lookupKey p0 k := by
              intro k hk
              rw [setParam_lookup_ne params _ cursor hk]
              exact hparams k hk
            have hreqs2 : ∀ q ∈ reqs ++ [setParam params "page[number]" cursor],
                ∀ k, k ≠ "page[number]" → lookupKey q k = lookupKey p0 k := by
              intro q hq k hk
              rcases List.mem_append.mp hq with h1 | h2
              · exact hreqs q h1 k hk
              · rw [List.mem_singleton.mp h2]
                exact hparams2 k hk
            by_cases hv : truthy v = true
            · simp only [hv, if_true] at hok
              cases hadd : pyAdd items v with
              | error e => simp [hadd] at hok
              | ok items2 =>
                simp only [hadd] at hok
                exact ih items2 _ _ resp2 res hne2 hparams2 hreqs2 hok
            · simp only [Bool.not_eq_true] at hv
              simp only [hv, Bool.false_eq_true, if_false] at hok
              exact ih items _ _ resp2 res hne2 hparams2 hreqs2 hok
      · simp only [Bool.not_eq_true] at hc
        simp only [hc, Bool.false_eq_true, if_false] at hok
        cases hok
        exact ⟨rfl, hparams, hreqs⟩

theorem hcpListLoop_pages (server : List (String × JValue) → Response)
    (cb : Response → Except PyErr JValue) (arrayName pageToken : String) :
    ∀ (fuel : Nat) (items : JValue) (params : List (String × JValue)) (aliased : Bool)
      (reqs : List (List (String × JValue))) (resp : JValue) (res : ListResult),
    (∀ q ∈ reqs, ∃ v, cb (server q) = .ok v) →
    hcpListLoop server cb arrayName pageToken fuel items params aliased reqs resp
      = some (.ok res) →
    ∀ q ∈ res.reqs, ∃ v, cb (server q) = .ok v := by
  intro fuel
  induction fuel with
  | zero =>
    intro items params aliased reqs resp res hreqs hok
    rw [hcpListLoop] at hok
    cases hnav : navigate_hash resp ["meta", "pagination", pageToken] .null with
    | error e => rw [hnav] at hok; cases hok
    | ok cursor =>
      rw [hnav] at hok
      by_cases hc : truthy cursor = true
      · simp [hc] at hok
      · simp only [Bool.not_eq_true] at hc
        simp only [hc, Bool.false_eq_true, if_false] at hok
        cases hok
        exact hreqs
  | succ n ih =>
    intro items params aliased reqs resp res hreqs hok
    rw [hcpListLoop] at hok
    cases hnav : navigate_hash resp ["meta", "pagination", pageToken] .null with
    | error e => rw [hnav] at hok; cases hok
    | ok cursor =>
      rw [hnav] at hok
      by_cases hc : truthy cursor = true
      · by_cases hemp : params.isEmpty = true
        · simp only [hc, if_true, hemp, eq_self_iff_true] at hok
          cases hcb : cb (server [("page[number]", cursor)]) with
          | error e => simp [hcb] at hok
          | ok resp2 =>
            simp only [hcb] at hok
            cases hpg : pyGet resp2 arrayName with
            | error e => simp [hpg] at hok
            | ok v =>
              simp only [hpg] at hok
              have hreqs2 : ∀ q ∈ reqs ++ [[("page[number]", cursor)]],
                  ∃ w, cb (server q) = .ok w := by
                intro q hq
                rcases List.mem_append.mp hq with h1 | h2
                · exact hreqs q h1
                · rw [List.mem_singleton.mp h2]; exact ⟨resp2, hcb⟩
              by_cases hv : truthy v = true
              · simp only [hv, if_true] at hok
                cases hadd : pyAdd items v with
                | error e => simp [hadd] at hok
                | ok items2 =>
                  simp only [hadd] at hok
                  exact ih items2 _ _ _ resp2 res hreqs2 hok
              · simp only [Bool.not_eq_true] at hv
                simp only [hv, Bool.false_eq_true, if_false] at hok
                exact ih items _ _ _ resp2 res hreqs2 hok
        · rw [Bool.not_eq_true] at hemp
          simp only [hc, if_true, hemp, Bool.false_eq_true, if_false] at hok
          cases hcb : cb (server (setParam params "page[number]" cursor)) with
          | error e => simp [hcb] at hok
          | ok resp2 =>
            simp only [hcb] at hok
            cases hpg : pyGet resp2 arrayName with
            | error e => simp [hpg] at hok
            | ok v =>
              simp only [hpg] at hok
              have hreqs2 : ∀ q ∈ reqs ++ [setParam params "page[number]" cursor],
                  ∃ w, cb (server q) = .ok w := by
                intro q hq
                rcases List.mem_append.mp hq with h1 | h2
                · exact hreqs q h1
                · rw [List.mem_singleton.mp h2]; exact ⟨resp2, hcb⟩
              by_cases hv : truthy v = true
              · simp only [hv, if_true] at hok
                cases hadd : pyAdd items v with
                | error e => simp [hadd] at hok
                | ok items2 =>
                  simp only [hadd] at hok
                  exact ih items2 _ _ _ resp2 res hreqs2 hok
              · simp only [Bool.not_eq_true] at hv
                simp only [hv, Bool.false_eq_true, if_false] at hok
                exact ih items _ _ _ resp2 res hreqs2 hok
      · simp only [Bool.not_eq_true] at hc
        simp only [hc, Bool.false_eq_true, if_false] at hok
        cases hok
        exact hreqs

theorem hcpList_pages (server : List (String × JValue) → Response)
    (cb : Response → Except PyErr JValue) (arrayName pageToken : String)
    (params0 : Option (List (String × JValue))) (fuel : Nat) (res : ListResult)
    (hok : hcpList server cb arrayName pageToken params0 fuel = some (.ok res)) :
    ∀ q ∈ res.reqs, ∃ v, cb (server q) = .ok v := by
  unfold hcpList at hok
  cases hcb : cb (server (params0.getD [])) with
  | error e => simp [hcb] at hok
  | ok resp =>
    simp only [hcb] at hok
    cases hpg : pyGet resp arrayName with
    | error e => simp [hpg] at hok
    | ok v =>
      simp only [hpg] at hok
      refine hcpListLoop_pages server cb arrayName pageToken fuel _ _ _ _ _ res ?_ hok
      intro q hq
      rw [List.mem_singleton.mp hq]
      exact ⟨resp, hcb⟩

theorem hcpList_frame (server : List (String × JValue) → Response)
    (cb : Response → Except PyErr JValue) (arrayName pageToken : String)
    {p0 : List (String × JValue)} {fuel : Nat} {res : ListResult}
    (hne : p0 ≠ [])
    (hok : hcpList server cb arrayName pageToken (some p0) fuel = some (.ok res)) :
    res.aliased = true ∧
    (∀ k, k ≠ "page[number]" → lookupKey res.params k = lookupKey p0 k) ∧
    (∀ q ∈ res.reqs, ∀ k, k ≠ "page[number]" → lookupKey q k = lookupKey p0 k) := by
  unfold hcpList at hok
  simp only [Option.getD_some, Option.isSome_some] at hok
  cases hcb : cb (server p0) with
  | error e => simp [hcb] at hok
  | ok resp =>
    simp only [hcb] at hok
    cases hpg : pyGet resp arrayName with
    | error e => simp [hpg] at hok
    | ok v =>
      simp only [hpg] at hok
      refine hcpListLoop_frame server cb arrayName pageToken p0 fuel _ _ _ _ res hne
        (fun k _ => rfl) ?_ hok
      intro q hq k hk
      rw [List.mem_singleton.mp hq]

/-! ## Concrete fixtures for the claims -/

/-- Page-1 envelope of the two-page listing scenario: two items and a
next-page cursor of 2. -/
def pageEnv1 : JValue := .dict [("data", .list [.str "i1", .str "i2"]),
  ("meta", .dict [("pagination", .dict [("next-page", .num 2)])])]

/-- Page-2 envelope: one item and no pagination block. -/
def pageEnv2 : JValue := .dict [("data", .list [.str "i3"])]

/-- A fake collection endpoint: serves page 2 when asked for
`page[number] = 2`, page 1 otherwise. -/
def pagedServer (ps : List (String × JValue)) : Response :=
  if lookupKey ps "page[number]" = some (.num 2) then ⟨200, some pageEnv2⟩
  else ⟨200, some pageEnv1⟩

/-- The decode callback the non-info resource modules pass to
`HcpSession.list`. -/
def projectCallback (r : Response) : Except PyErr JValue := return_if_object r false

/-- A caller-supplied query-parameter dictionary. -/
def demoParams : List (String × JValue) := [("filter[names]", .str "demo")]

/-- An envelope whose next-page cursor is the number 0: present, neither
null nor false, yet falsy. -/
def zeroCursorEnv : JValue := .dict [("data", .list [.str "i1", .str "i2"]),
  ("meta", .dict [("pagination", .dict [("next-page", .num 0)])])]

/-- Two variables sharing the natural key (key + category) with
different ids. -/
def dupVar1 : JValue := .dict [("id", .str "var-1"),
  ("attributes", .dict [("key", .str "k"), ("category", .str "terraform")])]

/-- Second variable with the same natural key as `dupVar1`. -/
def dupVar2 : JValue := .dict [("id", .str "var-2"),
  ("attributes", .dict [("key", .str "k"), ("category", .str "terraform")])]

/-! ## Claims -/

/-- C1 counterexample: a collection holding two variables that both
match the natural key (key "k", category "terraform").  `fetch_by_key`
returns the first match instead of failing fatally, refuting the claim
that every resource lookup fails on an ambiguous natural key. -/
theorem c1_counterexample :
    var_matches dupVar1 "k" "terraform" = .ok true ∧
    var_matches dupVar2 "k" "terraform" = .ok true ∧
    dupVar1 ≠ dupVar2 ∧
    fetch_by_key [dupVar1, dupVar2] "k" "terraform" = .ok (some dupVar1) :=
  ⟨by decide, by decide, by decide, by decide⟩

/-- C1 amended: the `fetch_by_name` lookups (project, varset, workspace
and the project/varset info modules) do fail fatally on more than one
result and return not-found on zero; but the variable lookup
`fetch_by_key` (and the name scan of workspace_info) returns the FIRST item
matching key + category with no ambiguity check, and `None` when no item
matches. -/
theorem c1_amended :
    (∀ l : List JValue, l.length > 1 → fetch_by_name l = .error .failJson) ∧
    (fetch_by_name [] = .ok none) ∧
    (∀ x : JValue, fetch_by_name [x] = .ok (some x)) ∧
    (∀ (v : JValue) (rest : List JValue) (key category : String),
      var_matches v key category = .ok true →
      fetch_by_key (v :: rest) key category = .ok (some v)) ∧
    (∀ (data : List JValue) (key category : String),
      (∀ v ∈ data, var_matches v key category = .ok false) →
      fetch_by_key data key category = .ok none) := by
  refine ⟨?_, rfl, fun x => rfl, ?_, ?_⟩
  · intro l hl
    unfold fetch_by_name
    rw [if_pos hl]
  · intro v rest key category h
    rw [fetch_by_key]
    simp only [h]
  · intro data key category h
    induction data with
    | nil => rfl
    | cons v rest ih =>
      rw [fetch_by_key]
      simp only [h v (List.mem_cons_self v rest)]
      exact ih (fun w hw => h w (List.mem_cons_of_mem _ hw))

/-- C1 witness: the amended claim applied at concrete inputs. -/
theorem c1_witness :
    fetch_by_name [dupVar1, dupVar2] = .error .failJson ∧
    fetch_by_key [dupVar2] "k" "terraform" = .ok (some dupVar2) ∧
    fetch_by_key [dupVar1] "nope" "terraform" = .ok none :=
  ⟨c1_amended.1 [dupVar1, dupVar2] (by decide),
   c1_amended.2.2.2.1 dupVar2 [] "k" "terraform" (by decide),
   c1_amended.2.2.2.2 [dupVar1] "nope" "terraform" (by decide)⟩

/-- C2 counterexample: against a genuinely EMPTY actual mapping, the
engine skips every desired key (`resp_dict.get(key) is not None` fails),
so the difference is empty — the claim predicted the full desired
content. -/
theorem c2_counterexample :
    difference (.dict [("foo", .list [.str "baz"])]) (.dict []) = .ok (.dict []) ∧
    (JValue.dict []) ≠ .dict [("foo", .list [.str "baz"])] := by
  constructor
  · simp [difference, compare_value, compare_dicts, lookupKey]
  · decide

/-- C2 amended: the asymmetry the test actually exercises needs the
actual side to carry the key with an EMPTY list (`{"foo": []}`), not to
be the empty mapping: then the full desired content is reproduced (for
non-empty lists of non-empty strings), while the empty-desired direction
is an empty difference. -/
theorem convertList_map_str (l : List String) :
    convertList (l.map .str) = l.map .str := by
  induction l with
  | nil => rfl
  | cons s rest ih => simp [convertList, convert_value, to_text, List.map_cons, ih]

theorem c2_amended (l : List String) (hne : l ≠ []) (hstr : ∀ s ∈ l, s ≠ "") :
    difference (.dict [("foo", .list (l.map .str))]) (.dict [("foo", .list [])])
      = .ok (.dict [("foo", .list (l.map .str))]) ∧
    difference (.dict []) (.dict [("foo", .list (l.map .str))]) = .ok (.dict []) := by
  have hconv : convertList (l.map .str) = l.map .str := convertList_map_str l
  have hfil : (l.map JValue.str).filter truthy = l.map JValue.str := by
    rw [List.filter_eq_self]
    intro x hx
    obtain ⟨s, hs, he⟩ := List.mem_map.mp hx
    subst he
    simpa [truthy] using hstr s hs
  constructor
  · unfold difference
    rw [compare_value_dictreq _ _ (by simp)]
    simp only [compare_dicts, lookupKey, if_true, Option.getD_some, reduceCtorEq, if_false,
      reduceIte]
    rw [compare_value_list _ _ (by simp)]
    have hpi : pyIterElems (convert_value (.list [])) = [] := rfl
    rw [hpi, hconv, compare_lists_nilresp, hfil]
    have ht : truthy (.list (l.map JValue.str)) = true := by
      simp [truthy, List.isEmpty_eq_true, hne]
    simp [ht]
  · unfold difference
    rw [compare_value_dictreq _ _ (by simp)]
    simp only [compare_dicts]

/-- C2 witness: the amended claim at the inputs of the unit test. -/
theorem c2_witness :
    difference (.dict [("foo", .list [.str "baz", .str "hello"])])
      (.dict [("foo", .list [])])
      = .ok (.dict [("foo", .list [.str "baz", .str "hello"])]) :=
  (c2_amended ["baz", "hello"] (by decide) (by decide)).1

/-- C3 counterexample: an envelope whose next-page cursor is the number
0 — present and neither null nor false — yet the listing stops after a
single request (fuel 0 suffices, so no further GET was even attempted),
because the loop condition is Python truthiness, not only
null/false-absence. -/
theorem c3_counterexample :
    navigate_hash zeroCursorEnv ["meta", "pagination", "next-page"] .null
      = .ok (.num 0) ∧
    (JValue.num 0) ≠ .null ∧ (JValue.num 0) ≠ .bool false ∧
    hcpList (fun _ => ⟨200, some zeroCursorEnv⟩) projectCallback "data" "next-page"
      (some demoParams) 0
      = some (.ok ⟨.list [.str "i1", .str "i2"], demoParams, true, [demoParams]⟩) :=
  ⟨by decide, by decide, by decide, rfl⟩

/-- C3 amended: pagination as described, with the loop condition
corrected from "present and neither null nor false" to Python truthiness
of the cursor.  First part: the two-page scenario (2 items + cursor 2,
then 1 item and no cursor) yields all three items in fetch order with
exactly two GETs (the request trace has length two), for every fuel
bound.  Second part: a falsy cursor (null, false, 0, empty text or
container) ends the loop immediately with no further request. -/
theorem c3_amended :
    (∀ f : Nat,
      hcpList pagedServer projectCallback "data" "next-page" (some demoParams) (f + 1)
      = some (.ok ⟨.list [.str "i1", .str "i2", .str "i3"],
          demoParams ++ [("page[number]", .num 2)], true,
          [demoParams, demoParams ++ [("page[number]", .num 2)]]⟩)) ∧
    (∀ (server : List (String × JValue) → Response)
       (cb : Response → Except PyErr JValue) (items : JValue)
       (params : List (String × JValue)) (aliased : Bool)
       (reqs : List (List (String × JValue))) (resp c : JValue),
      navigate_hash resp ["meta", "pagination", "next-page"] .null = .ok c →
      truthy c = false →
      hcpListLoop server cb "data" "next-page" 0 items params aliased reqs resp
        = some (.ok ⟨items, params, aliased, reqs⟩)) := by
  constructor
  · intro f; cases f <;> rfl
  · intro server cb items params aliased reqs resp c hnav hc
    rw [hcpListLoop]
    simp [hnav, hc]

/-- C3 witness: the falsy-cursor clause applied at the page-2 envelope. -/
theorem c3_witness :
    hcpListLoop pagedServer projectCallback "data" "next-page" 0 (.list [.str "i3"])
      demoParams true [demoParams] pageEnv2
      = some (.ok ⟨.list [.str "i3"], demoParams, true, [demoParams]⟩) :=
  c3_amended.2 pagedServer projectCallback (.list [.str "i3"]) demoParams true
    [demoParams] pageEnv2 .null (by decide) rfl

/-- C4 counterexample: a page fetch with HTTP status 500 whose JSON body
decodes and has no `errors` key is NOT fatal: `return_if_object` returns
the body and the listing completes normally, refuting "every non-2xx
status is fatal". -/
theorem c4_counterexample :
    return_if_object ⟨500, some (.dict [("data", .list [.str "i1"])])⟩ false
      = .ok (.dict [("data", .list [.str "i1"])]) ∧
    hcpList (fun _ => ⟨500, some (.dict [("data", .list [.str "i1"])])⟩)
      projectCallback "data" "next-page" (some demoParams) 0
      = some (.ok ⟨.list [.str "i1"], demoParams, true, [demoParams]⟩) :=
  ⟨rfl, rfl⟩

/-- C4 amended: with the decoder of the non-info modules, what is fatal during
a listing is a JSON-decode failure or a truthy top-level `errors` value
on any fetched page (plus the 204 no-content path, which crashes before
items are returned); the HTTP status code is not otherwise consulted.
Whenever the listing returns an item list at all, every GET it issued
had a successfully decoded, error-free response — no truncated result can
survive a failed page. -/
theorem c4_amended :
    (∀ (server : List (String × JValue) → Response)
       (params0 : Option (List (String × JValue))) (fuel : Nat) (res : ListResult),
      hcpList server (fun r => return_if_object r false) "data" "next-page" params0 fuel
        = some (.ok res) →
      ∀ q ∈ res.reqs, ∃ v, return_if_object (server q) false = .ok v) ∧
    (∀ s : Nat, s ≠ 204 → return_if_object ⟨s, none⟩ false = .error .failJson) ∧
    (return_if_object ⟨500, some (.dict [("errors", .list [.str "boom"])])⟩ false
      = .error .failJson) := by
  refine ⟨?_, ?_, rfl⟩
  · intro server params0 fuel res hok
    exact hcpList_pages server _ "data" "next-page" params0 fuel res hok
  · intro s hs
    have h1 : (s == 204) = false := by simpa using hs
    unfold return_if_object
    simp [h1]

/-- C4 witness: the amended claim at the 500-status scenario and at a
decode failure. -/
theorem c4_witness :
    (∃ v, return_if_object
      ((fun _ => (⟨500, some (.dict [("data", .list [.str "i1"])])⟩ : Response))
        demoParams) false = .ok v) ∧
    return_if_object ⟨500, none⟩ false = .error .failJson := by
  constructor
  · exact c4_amended.1 (fun _ => ⟨500, some (.dict [("data", .list [.str "i1"])])⟩)
      (some demoParams) 0
      ⟨.list [.str "i1"], demoParams, true, [demoParams]⟩ rfl demoParams (by simp)
  · exact c4_amended.2.1 500 (by decide)

/-- C5 counterexample: a falsy desired element (the empty string) is
never appended: with desired list [""] and empty actual list, the claim
predicts difference {"foo": [""]}, but the engine returns an empty
difference (`if not found_item and req_item` drops falsy items). -/
theorem c5_counterexample :
    difference (.dict [("foo", .list [.str ""])]) (.dict [("foo", .list [])])
      = .ok (.dict []) ∧
    (JValue.dict []) ≠ .dict [("foo", .list [.str ""])] := by
  constructor
  · simp [difference, compare_value, compare_dicts, compare_lists, compare_one_found,
      lookupKey, truthy, to_text, pyRepr, convertList, convert_value, pyIterElems,
      List.isEmpty]
  · decide

/-- C5 amended: when both sides are lists and the comparison completes,
the difference is the desired-order sequence of the TEXT-CONVERTED
desired elements that are truthy after conversion and for which no
converted actual element compares with a falsy difference; the actual
ordering of the actual list is irrelevant; the example of the spec holds. -/
theorem c5_amended :
    (∀ (l1 l2 : List JValue) (d : JValue),
      compare_value (.list l1) (.list l2) = .ok d →
      d = .list ((convertList l1).filter
        (fun r => !matchedIn r (convertList l2) && truthy r))) ∧
    (∀ (l1 l2 l2b : List JValue) (d : JValue),
      l2b.Perm l2 →
      compare_value (.list l1) (.list l2) = .ok d →
      compare_value (.list l1) (.list l2b) = .ok d) ∧
    (difference (.dict [("foo", .list [.str "baz", .str "bar"])])
        (.dict [("foo", .list [.str "baz", .str "hello"])])
      = .ok (.dict [("foo", .list [.str "bar"])])) := by
  have key : ∀ (l1 l2 : List JValue) (d : JValue),
      compare_value (.list l1) (.list l2) = .ok d →
      d = .list ((convertList l1).filter
        (fun r => !matchedIn r (convertList l2) && truthy r)) := by
    intro l1 l2 d hok
    rw [compare_value_list _ _ (by simp), pyIterElems_convert_list] at hok
    cases hcl : compare_lists (convertList l1) (convertList l2) with
    | error e => rw [hcl] at hok; cases hok
    | ok ds =>
      rw [hcl] at hok
      cases hok
      rw [compare_lists_filter hcl]
  refine ⟨key, ?_, ?_⟩
  · intro l1 l2 l2b d hp hok
    have hperm : (convertList l2b).Perm (convertList l2) := by
      rw [convertList_eq_map, convertList_eq_map]
      exact hp.map convert_value
    have hok1 : isOkE (compare_value (.list l1) (.list l2)) = true := by rw [hok]; rfl
    rw [compare_isOk, crashFree_list _ _ (by simp), pyIterElems_convert_list] at hok1
    have hok2 : isOkE (compare_value (.list l1) (.list l2b)) = true := by
      rw [compare_isOk, crashFree_list _ _ (by simp), pyIterElems_convert_list]
      rw [crashFreeLists_perm _ hperm]
      exact hok1
    cases hres : compare_value (.list l1) (.list l2b) with
    | error e => rw [hres] at hok2; cases hok2
    | ok d2 =>
      have h1 := key l1 l2 d hok
      have h2 := key l1 l2b d2 hres
      have hfe : (convertList l1).filter (fun r => !matchedIn r (convertList l2b) && truthy r)
          = (convertList l1).filter (fun r => !matchedIn r (convertList l2) && truthy r) :=
        List.filter_congr (fun r _ => by rw [matchedIn_perm hperm])
      have hd : d2 = d := by rw [h2, hfe, ← h1]
      rw [← hd]
  · simp [difference, compare_value, compare_dicts, compare_lists, compare_one_found,
      lookupKey, truthy, to_text, pyRepr, convertList, convert_value, pyIterElems,
      List.isEmpty]

/-- C5 witness: the list characterization applied at the example lists of
the spec. -/
theorem c5_witness :
    (JValue.list [.str "bar"])
      = .list ((convertList [.str "baz", .str "bar"]).filter
          (fun r => !matchedIn r (convertList [.str "baz", .str "hello"]) && truthy r)) :=
  c5_amended.1 [.str "baz", .str "bar"] [.str "baz", .str "hello"] (.list [.str "bar"])
    (by simp [compare_value, compare_lists, compare_one_found, truthy, to_text, pyRepr,
      convertList, convert_value, pyIterElems, List.isEmpty])

/-- C6: with a boolean desired value and a non-null actual value, the
comparison reports no difference exactly when the desired boolean equals
the coercion `bool(to_text(actual).capitalize() == "True")`; the only
other possible outcome is the truthy marker `True`.  (The original
`UnicodeError` fail-open branch is unreachable on JSON values, where
`to_text` cannot fail.) -/
theorem c6_boolean_coercion (b : Bool) (a : JValue) (h : a ≠ .null) :
    (compare_value (.bool b) a = .ok .null ↔ b = bool_coerce a) ∧
    (compare_value (.bool b) a = .ok .null ∨ compare_value (.bool b) a = .ok (.bool true)) := by
  rw [compare_value_boolreq b a h]
  unfold compare_boolean
  by_cases hb : b = bool_coerce a
  · simp [hb]
  · simp [hb]

/-- C6 witness: mixed-case text "tRUE" capitalizes to "True" and so
coerces to true, matching a desired `true` with no difference. -/
theorem c6_witness : compare_value (.bool true) (.str "tRUE") = .ok .null :=
  ((c6_boolean_coercion true (.str "tRUE") (by decide)).1).mpr (by decide)

/-- C7 counterexample: a mapping on the desired side against a scalar on
the actual side raises AttributeError (`"x".get(...)`), refuting
totality of the comparator on mismatched shapes. -/
theorem c7_counterexample :
    difference (.dict [("a", .str "b")]) (.str "x") = .error .attrError := by
  simp [difference, compare_value, compare_dicts]

/-- C7 amended: the comparator returns a result exactly on the
crash-free pairs — those in which no desired-side mapping ever faces a
non-mapping, non-null actual value (directly, under dict recursion, or
between converted list elements); outside that domain AttributeError
propagates. -/
theorem c7_amended (req resp : JValue) :
    isOkE (difference req resp) = crashFree req resp := by
  unfold difference
  exact compare_isOk req resp

/-- C8 counterexample: reflexivity fails outright on a tree whose list
mixes a mapping with a scalar: difference(R, R) raises AttributeError
when the converted dict element is cross-compared against the converted
scalar element. -/
theorem c8_counterexample :
    difference (.dict [("foo", .list [.dict [("a", .str "b")], .str "x"])])
      (.dict [("foo", .list [.dict [("a", .str "b")], .str "x"])])
      = .error .attrError := by
  simp [difference, compare_value, compare_dicts, compare_lists, compare_one_found,
    lookupKey, truthy, to_text, pyRepr, convertList, convertEntries, convert_value,
    pyIterElems, List.isEmpty]

/-- C8 amended: whenever difference(R, R) completes without raising (and
the dicts of R have unique keys, as every Python dict does), the result is
empty (falsy). -/
theorem c8_amended (R : JValue) (hwf : wfJ R = true) (d : JValue)
    (hok : difference R R = .ok d) : truthy d = false := by
  unfold difference at hok
  exact compare_refl R hwf d hok

/-- C8 witness: reflexivity at the nested-dictionary example
tree. -/
theorem c8_witness : truthy (JValue.dict []) = false :=
  c8_amended
    (.dict [("foo", .dict [("quiet", .dict [("tree", .str "test")]), ("bar", .str "baz")]),
      ("test", .str "original")])
    (by decide) (.dict [])
    (by simp [difference, compare_value, compare_dicts, lookupKey, truthy, to_text,
      pyRepr, List.isEmpty])

/-- C9 counterexample: the supplied default is also returned for a
truthy NON-mapping source — a string that does not contain the key as a
substring — refuting "only when a key is missing from a non-empty
mapping". -/
theorem c9_counterexample :
    truthy (.str "abc") = true ∧
    navigate_hash (.str "abc") ["q"] (.str "dflt") = .ok (.str "dflt") :=
  ⟨rfl, by decide⟩

/-- C9 amended: `navigate_hash` returns `None` — never the supplied
default — for every falsy source (`None`, the empty mapping, or any
other falsy value), whatever the path and default; when the source is a
non-empty mapping missing the requested key, the default IS returned;
but non-mapping truthy sources can also yield the default, so "only
from a non-empty mapping" does not hold. -/
theorem c9_amended :
    (∀ (source : JValue) (path : List String) (default : JValue),
      truthy source = false → navigate_hash source path default = .ok .null) ∧
    (∀ (kvs : List (String × JValue)) (k : String) (default : JValue),
      kvs ≠ [] → lookupKey kvs k = none →
      navigate_hash (.dict kvs) [k] default = .ok default) := by
  constructor
  · intro source path default h
    rw [navigate_hash.eq_def]
    simp [h]
  · intro kvs k default hne hlk
    have ht : truthy (.dict kvs) = true := by
      cases kvs with
      | nil => exact absurd rfl hne
      | cons a b => rfl
    have hcon : ((kvs.map Prod.fst).contains k) = false := by
      rw [lookup_contains, hlk]
      rfl
    rw [navigate_hash.eq_def]
    simp only [ht, Bool.not_true, Bool.false_eq_true, if_false, hcon]

/-- C9 witness: the amended claim at an empty mapping and at a non-empty
mapping missing the key. -/
theorem c9_witness :
    navigate_hash (.dict []) ["a"] (.str "d") = .ok .null ∧
    navigate_hash (.dict [("x", .num 1)]) ["q"] (.str "d") = .ok (.str "d") :=
  ⟨c9_amended.1 (.dict []) ["a"] (.str "d") rfl,
   c9_amended.2 [("x", .num 1)] "q" (.str "d") (by decide) (by decide)⟩

/-- C10 counterexample: a caller-supplied EMPTY params dictionary is
falsy, so the loop rebinds `params` to a fresh dictionary instead of
mutating the caller object: after a two-page listing that followed a
cursor, the caller dictionary still lacks the key page[number]. -/
theorem c10_counterexample :
    hcpList pagedServer projectCallback "data" "next-page" (some []) 1
      = some (.ok ⟨.list [.str "i1", .str "i2", .str "i3"],
          [("page[number]", .num 2)], false, [[], [("page[number]", .num 2)]]⟩) ∧
    callerParamsAfter []
      ⟨.list [.str "i1", .str "i2", .str "i3"],
        [("page[number]", .num 2)], false, [[], [("page[number]", .num 2)]]⟩ = [] :=
  ⟨rfl, rfl⟩

/-- C10 amended: when the caller-supplied params dictionary is
NON-empty, the loop mutates that same object (`aliased` stays true, so
the caller observes the final dictionary), only the key page[number] is
ever written (every other key reads the same as in the original), and
each subsequent page request re-sends the other caller entries
unchanged. -/
theorem c10_amended (server : List (String × JValue) → Response)
    (cb : Response → Except PyErr JValue) (p0 : List (String × JValue)) (fuel : Nat)
    (res : ListResult) (hne : p0 ≠ [])
    (hok : hcpList server cb "data" "next-page" (some p0) fuel = some (.ok res)) :
    res.aliased = true ∧
    callerParamsAfter p0 res = res.params ∧
    (∀ k, k ≠ "page[number]" → lookupKey res.params k = lookupKey p0 k) ∧
    (∀ q ∈ res.reqs, ∀ k, k ≠ "page[number]" → lookupKey q k = lookupKey p0 k) := by
  obtain ⟨h1, h2, h3⟩ := hcpList_frame server cb "data" "next-page" hne hok
  refine ⟨h1, ?_, h2, h3⟩
  unfold callerParamsAfter
  rw [h1]
  rfl

/-- C10 witness: the amended claim at the two-page scenario with a
non-empty caller dictionary. -/
theorem c10_witness :
    callerParamsAfter demoParams
      ⟨.list [.str "i1", .str "i2", .str "i3"],
        demoParams ++ [("page[number]", .num 2)], true,
        [demoParams, demoParams ++ [("page[number]", .num 2)]]⟩
    = demoParams ++ [("page[number]", .num 2)] :=
 by
  have h := c10_amended pagedServer projectCallback demoParams 1 _ (by decide) rfl
  exact h.2.1
